import Mathlib

/-!
Shallow embedding of the Global Medical Passport application (src/app.py).
Pure fragments of the Python source are translated into executable Lean
definitions; the hosted database, storage and widget state are modelled as
explicit values passed to and returned from the translated handlers.
Text is represented as List Char so that the character-level operations of
the source (slicing, strip, lower, regex splitting) are explicit.
-/

namespace MedicalPassport

/-- Characters removed by the Python method str.strip called with no
argument (the ASCII whitespace characters). -/
def pyIsSpace (c : Char) : Bool :=
  c = ' ' || c = '\t' || c = '\n' || c = '\r' || c = '\x0b' || c = '\x0c'

/-- Model of the Python method str.strip with no argument: drop whitespace
from both ends of the string. -/
def pyStrip (l : List Char) : List Char :=
  ((l.dropWhile pyIsSpace).reverse.dropWhile pyIsSpace).reverse

/-- Model of the Python method str.lower, applied character by character.
It is exact on the ASCII range, which covers every keyword literal of the
source. -/
def pyLower (c : Char) : Char := c.toLower

/-- The twelve month abbreviations appearing in the date regex of
deep_parse_medical_cv (src/app.py line 107). -/
def monthTokens : List (List Char) :=
  ["Jan", "Feb", "Mar", "Apr", "May", "Jun", "Jul", "Aug", "Sep", "Oct",
   "Nov", "Dec"].map String.toList

/-- One attempt of the regex alternation (\d{4}|Jan|...|Dec) at the head of
the text: four decimal digits, otherwise one month abbreviation.  Returns
the matched token together with the remaining text. -/
def dateMatchAt : List Char → Option (List Char × List Char)
  | c1 :: c2 :: c3 :: c4 :: rest =>
    if c1.isDigit && c2.isDigit && c3.isDigit && c4.isDigit then
      some ([c1, c2, c3, c4], rest)
    else if monthTokens.contains [c1, c2, c3] then
      some ([c1, c2, c3], c4 :: rest)
    else none
  | [c1, c2, c3] =>
    if monthTokens.contains [c1, c2, c3] then some ([c1, c2, c3], []) else none
  | _ => none

theorem dateMatchAt_spec :
    ∀ {l : List Char} {p}, dateMatchAt l = some p →
      p.1 ++ p.2 = l ∧ p.2.length < l.length
  | [], p, h => by simp [dateMatchAt] at h
  | [c1], p, h => by simp [dateMatchAt] at h
  | [c1, c2], p, h => by simp [dateMatchAt] at h
  | [c1, c2, c3], p, h => by
    simp only [dateMatchAt] at h
    split_ifs at h
    · cases h
      refine ⟨rfl, ?_⟩
      simp only [List.length_cons, List.length_nil]
      omega
  | c1 :: c2 :: c3 :: c4 :: rest, p, h => by
    simp only [dateMatchAt] at h
    split_ifs at h
    · cases h
      refine ⟨rfl, ?_⟩
      simp only [List.length_cons]
      omega
    · cases h
      refine ⟨rfl, ?_⟩
      simp only [List.length_cons]
      omega

/-- Model of re.split with the capturing pattern
(\d{4}|Jan|Feb|Mar|Apr|May|Jun|Jul|Aug|Sep|Oct|Nov|Dec): scan the text left
to right, emit the accumulated plain segment before each match, the matched
token itself, and finally the trailing segment (src/app.py line 107).  The
fuel argument only bounds the recursion; every step consumes at least one
character, so any fuel of at least the text length gives the exact
splitting behaviour. -/
def pySplitDate : Nat → List Char → List Char → List (List Char)
  | 0, acc, _ => [acc]
  | fuel + 1, acc, rest =>
    match dateMatchAt rest with
    | some p => acc :: p.1 :: pySplitDate fuel [] p.2
    | none =>
      match rest with
      | [] => [acc]
      | c :: rs => pySplitDate fuel (acc ++ [c]) rs

/-- The segment list produced by the re.split call of deep_parse_medical_cv
on the extracted text. -/
def pySplitDateTokens (text : List Char) : List (List Char) :=
  pySplitDate text.length [] text

/-- Registration keyword set of the classifier (src/app.py line 122). -/
def registrationKeywords : List (List Char) :=
  ["gmc", "registration", "licence", "license"].map String.toList

/-- Rotation keyword set of the classifier (src/app.py line 125). -/
def rotationKeywords : List (List Char) :=
  ["hospital", "trust", "szpital", "clinic", "department"].map String.toList

/-- Procedure keyword set of the classifier (src/app.py line 128). -/
def procedureKeywords : List (List Char) :=
  ["procedure", "performed", "intubation", "suturing", "skills"].map String.toList

/-- Academic keyword set of the classifier (src/app.py line 131). -/
def academicKeywords : List (List Char) :=
  ["audit", "qip", "research", "published"].map String.toList

/-- Executable test that the first list occurs contiguously inside the
second, modelling the Python substring operator in. -/
def listInfixOf (p : List Char) : List Char → Bool
  | [] => p.isEmpty
  | c :: t => p.isPrefixOf (c :: t) || listInfixOf p t

/-- The Python test any(k in low_block for k in keywords), where low_block
is the lowercased block. -/
def hasKeyword (block : List Char) (ks : List (List Char)) : Bool :=
  ks.any (fun k => listInfixOf k (block.map pyLower))

/-- The four output categories of deep_parse_medical_cv. -/
inductive CVCategory where
  | rotations
  | procedures
  | projects
  | registrations
deriving DecidableEq

/-- The if/elif keyword cascade of deep_parse_medical_cv (src/app.py lines
121-132): registration first, then rotation, then procedure, then academic;
none gives a silent discard. -/
def classifyBlock (b : List Char) : Option CVCategory :=
  if hasKeyword b registrationKeywords then some .registrations
  else if hasKeyword b rotationKeywords then some .rotations
  else if hasKeyword b procedureKeywords then some .procedures
  else if hasKeyword b academicKeywords then some .projects
  else none

/-- The result dictionary of deep_parse_medical_cv, with its four lists. -/
structure ParsedCV where
  rotations : List (List Char)
  procedures : List (List Char)
  projects : List (List Char)
  registrations : List (List Char)
deriving DecidableEq

/-- The initial (and empty) extraction dictionary. -/
def emptyParsed : ParsedCV := ⟨[], [], [], []⟩

/-- Append a stripped block to the list named by the classification;
no classification leaves the dictionary unchanged. -/
def addToCategory : Option CVCategory → List Char → ParsedCV → ParsedCV
  | none, _, e => e
  | some .rotations, b, e => { e with rotations := b :: e.rotations }
  | some .procedures, b, e => { e with procedures := b :: e.procedures }
  | some .projects, b, e => { e with projects := b :: e.projects }
  | some .registrations, b, e => { e with registrations := b :: e.registrations }

/-- The segment loop of deep_parse_medical_cv (src/app.py lines 111-134):
skip empty segments, accumulate the rest into current_block, and once the
accumulated block is longer than 50 characters classify it, store its
stripped form, and reset the accumulator.  The trailing accumulation is
dropped when the loop ends. -/
def parseBlocksLoop : List (List Char) → List Char → ParsedCV
  | [], _ => emptyParsed
  | seg :: rest, cur =>
    if seg = [] then parseBlocksLoop rest cur
    else
      let cur2 := cur ++ seg
      if 50 < cur2.length then
        addToCategory (classifyBlock cur2) (pyStrip cur2) (parseBlocksLoop rest [])
      else parseBlocksLoop rest cur2

/-- deep_parse_medical_cv (src/app.py lines 101-136) applied to the text
already extracted from the PDF pages. -/
def deep_parse_medical_cv (text : List Char) : ParsedCV :=
  parseBlocksLoop (pySplitDateTokens text) []

/-- The candidate blocks of the segment loop: the successive accumulations
that pass the 50 character threshold, in order, before stripping. -/
def candidateBlocks : List (List Char) → List Char → List (List Char)
  | [], _ => []
  | seg :: rest, cur =>
    if seg = [] then candidateBlocks rest cur
    else
      let cur2 := cur ++ seg
      if 50 < cur2.length then cur2 :: candidateBlocks rest []
      else candidateBlocks rest cur2

/-- Assign every candidate block to the list named by its classification,
storing the stripped form. -/
def assignBlocks : List (List Char) → ParsedCV
  | [] => emptyParsed
  | b :: bs => addToCategory (classifyBlock b) (pyStrip b) (assignBlocks bs)

/-- The keyword sets in the priority order of the source code:
registration, rotation, procedure, academic. -/
def keywordTable : List (List (List Char) × CVCategory) :=
  [(registrationKeywords, .registrations),
   (rotationKeywords, .rotations),
   (procedureKeywords, .procedures),
   (academicKeywords, .projects)]

/-- The keyword sets in the priority order asserted by the specification:
registration, procedure, academic, rotation. -/
def specClaimedKeywordTable : List (List (List Char) × CVCategory) :=
  [(registrationKeywords, .registrations),
   (procedureKeywords, .procedures),
   (academicKeywords, .projects),
   (rotationKeywords, .rotations)]

/-- Assign a block to the first entry of a priority table whose keyword set
matches it. -/
def firstMatchCategory : List (List (List Char) × CVCategory) → List Char → Option CVCategory
  | [], _ => none
  | e :: t, b => if hasKeyword b e.1 then some e.2 else firstMatchCategory t b

/-- The static nested dictionary EQUIVALENCY_MAP (src/app.py lines 31-64),
with its key order preserved. -/
def EQUIVALENCY_MAP : List (String × List (String × String)) :=
  [("Tier 1: Junior (Intern/FY1)",
    [("UK", "Foundation Year 1"), ("US", "PGY-1 (Intern)"), ("Australia", "Intern"),
     ("Ireland", "Intern"), ("Canada", "PGY-1"), ("Dubai/DHA", "Intern"),
     ("India/Pakistan", "House Officer / Intern"), ("Nigeria", "House Officer"),
     ("China/S.Korea", "Junior Resident"), ("Europe", "Junior Doctor"),
     ("Poland", "Lekarz stażysta"),
     ("Responsibilities", "Ward based, supervised prescribing, basic clinical procedures.")]),
   ("Tier 2: Intermediate (SHO/Resident)",
    [("UK", "FY2 / Core Trainee"), ("US", "PGY-2/3 (Resident)"), ("Australia", "Resident / RMO"),
     ("Ireland", "SHO"), ("Canada", "Junior Resident"), ("Dubai/DHA", "GP / Resident"),
     ("India/Pakistan", "PG Resident / Medical Officer"), ("Nigeria", "Registrar"),
     ("China/S.Korea", "Resident"), ("Europe", "Resident Physician"),
     ("Poland", "Lekarz rezydent (Junior)"),
     ("Responsibilities", "Acute assessments, procedural proficiency, core specialty rotations.")]),
   ("Tier 3: Senior (Registrar/Fellow)",
    [("UK", "ST3+ / Registrar"), ("US", "Chief Resident / Fellow"), ("Australia", "Registrar"),
     ("Ireland", "Specialist Registrar (SpR)"), ("Canada", "Senior Resident / Fellow"),
     ("Dubai/DHA", "Specialist (P)"),
     ("India/Pakistan", "Senior Resident / Registrar"), ("Nigeria", "Senior Registrar"),
     ("China/S.Korea", "Attending Physician / Fellow"),
     ("Europe", "Specialist Trainee / Senior Registrar"),
     ("Poland", "Lekarz rezydent (Senior)"),
     ("Responsibilities", "Team leadership, specialty decision making, independent in core procedures.")]),
   ("Tier 4: Expert (Consultant/Attending)",
    [("UK", "Consultant / SAS"), ("US", "Attending Physician"), ("Australia", "Consultant / Specialist"),
     ("Ireland", "Consultant"), ("Canada", "Staff Specialist"), ("Dubai/DHA", "Consultant"),
     ("India/Pakistan", "Consultant / Asst. Professor"), ("Nigeria", "Consultant"),
     ("China/S.Korea", "Chief Physician"), ("Europe", "Specialist / Consultant"),
     ("Poland", "Lekarz specjalista"),
     ("Responsibilities", "Final clinical accountability, service leadership, senior training.")])]

/-- The double dictionary access EQUIVALENCY_MAP[tier][country], with a
missing key modelled as none. -/
def equivalencyLookup (tier country : String) : Option String :=
  match EQUIVALENCY_MAP.lookup tier with
  | some row => row.lookup country
  | none => none

/-- The dictionary COUNTRY_KEY_MAP (src/app.py lines 66-72): display label
of each healthcare system paired with its key into the equivalency rows. -/
def COUNTRY_KEY_MAP : List (String × String) :=
  [("United Kingdom", "UK"), ("United States", "US"), ("Australia", "Australia"),
   ("Ireland", "Ireland"), ("Canada", "Canada"), ("Dubai (DHA)", "Dubai/DHA"),
   ("India & Pakistan", "India/Pakistan"), ("Nigeria", "Nigeria"),
   ("China & S.Korea", "China/S.Korea"), ("Europe (General)", "Europe"),
   ("Poland", "Poland")]

/-- The key list list(EQUIVALENCY_MAP.keys()) used by the tier selectbox. -/
def tierKeys : List String := EQUIVALENCY_MAP.map (fun e => e.1)

/-- The selectbox index expression of src/app.py line 169:
list(EQUIVALENCY_MAP.keys()).index(curr_tier) when curr_tier is a key of
EQUIVALENCY_MAP, and 0 otherwise. -/
def tierSelectIndex (currTier : String) : Nat :=
  if tierKeys.contains currTier then tierKeys.indexOf currTier else 0

/-- One row of the profiles table as written by the save handler: the email
key, the tier string, and the selected countries serialised as JSON text. -/
structure ProfileRow where
  user_email : String
  global_tier : String
  selected_countries : List Char
deriving DecidableEq

/-- JSON escaping of one character as produced by json.dumps (modelled from
the Python json library, which is not part of src/, for the escapes
relevant to printable ASCII text). -/
def escapeJsonChar (c : Char) : List Char :=
  if c = '"' then ['\\', '"']
  else if c = '\\' then ['\\', '\\']
  else if c = '\n' then ['\\', 'n']
  else if c = '\t' then ['\\', 't']
  else if c = '\r' then ['\\', 'r']
  else [c]

/-- A character that json.dumps copies verbatim into its output. -/
def plainJsonChar (c : Char) : Bool :=
  !(c = '"' || c = '\\' || c = '\n' || c = '\t' || c = '\r')

/-- Concatenated escaping of a whole string. -/
def escapeJsonString : List Char → List Char
  | [] => []
  | c :: cs => escapeJsonChar c ++ escapeJsonString cs

/-- One JSON string literal of the json.dumps output. -/
def dumpJsonString (s : List Char) : List Char :=
  '"' :: escapeJsonString s ++ ['"']

/-- The comma separated element text of a dumped JSON array, with the
default separator of json.dumps (a comma followed by one space). -/
def dumpJsonElems : List (List Char) → List Char
  | [] => []
  | [s] => dumpJsonString s
  | s :: rest => dumpJsonString s ++ ',' :: ' ' :: dumpJsonElems rest

/-- Model of json.dumps on a list of strings (Python standard library, not
part of src/): bracketed, comma separated string literals. -/
def pyJsonDumpsList (l : List (List Char)) : List Char :=
  '[' :: (dumpJsonElems l ++ [']'])

/-- Inverse of the escape table, used when reading a JSON string literal. -/
def unescapeJsonChar (c : Char) : Option Char :=
  if c = '"' then some '"'
  else if c = '\\' then some '\\'
  else if c = 'n' then some '\n'
  else if c = 't' then some '\t'
  else if c = 'r' then some '\r'
  else none

/-- Read one JSON string literal after its opening quote; returns the
decoded text and the remaining input. -/
def parseJsonStringBody : List Char → Option (List Char × List Char)
  | [] => none
  | c :: rest =>
    if c = '"' then some ([], rest)
    else if c = '\\' then
      match rest with
      | [] => none
      | e :: rest2 =>
        match unescapeJsonChar e, parseJsonStringBody rest2 with
        | some u, some p => some (u :: p.1, p.2)
        | _, _ => none
    else
      match parseJsonStringBody rest with
      | some p => some (c :: p.1, p.2)
      | none => none

theorem parseJsonStringBody_length_aux :
    ∀ (n : Nat) (l : List Char), l.length ≤ n →
      ∀ p, parseJsonStringBody l = some p → p.2.length < l.length := by
  intro n
  induction n with
  | zero =>
    intro l hl p h
    cases l with
    | nil => simp [parseJsonStringBody] at h
    | cons c rest =>
      simp only [List.length_cons] at hl
      omega
  | succ n ih =>
    intro l hl p h
    cases l with
    | nil => simp [parseJsonStringBody] at h
    | cons c rest =>
      rw [parseJsonStringBody.eq_def] at h
      simp only [] at h
      split_ifs at h with hq hb
      · cases h
        simp
      · cases rest with
        | nil => cases h
        | cons e rest2 =>
          simp only [] at h
          cases hu : unescapeJsonChar e with
          | none => rw [hu] at h; cases h
          | some u =>
            rw [hu] at h
            cases hp : parseJsonStringBody rest2 with
            | none => rw [hp] at h; cases h
            | some q =>
              rw [hp] at h
              cases h
              have hr2 : rest2.length ≤ n := by
                simp only [List.length_cons] at hl
                omega
              have hlt := ih rest2 hr2 q hp
              simp only [List.length_cons]
              omega
      · cases hp : parseJsonStringBody rest with
        | none => rw [hp] at h; cases h
        | some q =>
          rw [hp] at h
          cases h
          have hr : rest.length ≤ n := by
            simp only [List.length_cons] at hl
            omega
          have hlt := ih rest hr q hp
          simp only [List.length_cons]
          omega

theorem parseJsonStringBody_length {l : List Char} {p}
    (h : parseJsonStringBody l = some p) : p.2.length < l.length :=
  parseJsonStringBody_length_aux l.length l (Nat.le_refl _) p h

/-- Read the inside of a JSON array of string literals, as written by
json.dumps with its default separators: string literals separated by a
comma and one space, closed by a bracket.  Returns the decoded list and the
remaining input (a model of the array branch of json.loads on the texts the
application itself stores). -/
def parseJsonListBody (l : List Char) : Option (List (List Char) × List Char) :=
  match l with
  | [] => none
  | c :: rest =>
    if c = '"' then
      match hp : parseJsonStringBody rest with
      | none => none
      | some p =>
        match hq : p.2 with
        | ']' :: r2 => some ([p.1], r2)
        | ',' :: ' ' :: r2 =>
          match parseJsonListBody r2 with
          | some q => some (p.1 :: q.1, q.2)
          | none => none
        | _ => none
    else none
termination_by l.length
decreasing_by
  have hlt := parseJsonStringBody_length hp
  simp only [hq, List.length_cons] at hlt
  simp only [List.length_cons]
  omega

/-- Model of json.loads (Python standard library, not part of src/)
restricted to arrays of string literals in the exact shape produced by
json.dumps: the only shape the application ever stores and reloads. -/
def pyJsonLoadsList (l : List Char) : Option (List (List Char)) :=
  match l with
  | [] => none
  | c :: rest =>
    if c = '[' then
      if rest = [']'] then some []
      else
        match parseJsonListBody rest with
        | some p => if p.2 = [] then some p.1 else none
        | none => none
    else none

/-- The rows of the profiles table whose user_email column equals the given
email: the select...eq filter of fetch_user_data (src/app.py line 95). -/
def profilesFor (db : List ProfileRow) (email : String) : List ProfileRow :=
  db.filter (fun r => r.user_email == email)

/-- The upsert on the profiles table with conflict target user_email
(src/app.py line 173): every row holding the same email is replaced by the
new row, and with no conflicting row the new row is appended. -/
def upsertProfile (db : List ProfileRow) (r : ProfileRow) : List ProfileRow :=
  if db.any (fun x => x.user_email == r.user_email) then
    db.map (fun x => if x.user_email == r.user_email then r else x)
  else db ++ [r]

/-- The Save Preferences handler (src/app.py line 173): upsert the email,
the chosen tier, and json.dumps of the chosen country labels. -/
def saveProfilePrefs (db : List ProfileRow) (email tier : String)
    (countries : List (List Char)) : List ProfileRow :=
  upsertProfile db ⟨email, tier, pyJsonDumpsList countries⟩

/-- The reloaded tier (src/app.py line 168): the global_tier column of the
first fetched profile row, with the Tier 1 literal as the default when no
profile exists. -/
def reloadTier (db : List ProfileRow) (email : String) : String :=
  match (profilesFor db email).head? with
  | some r => r.global_tier
  | none => "Tier 1: Junior (Intern/FY1)"

/-- The reloaded country list (src/app.py lines 170-171): the stored
selected_countries value of the first fetched profile row passed through
json.loads, since the stored value is a string and not a list; the United
Kingdom singleton is the default when no profile exists. -/
def reloadCountries (db : List ProfileRow) (email : String) : Option (List (List Char)) :=
  match (profilesFor db email).head? with
  | some r => pyJsonLoadsList r.selected_countries
  | none => some ["United Kingdom".toList]

/-- One row of the rotations table as inserted by the manual entry form
(src/app.py line 220). -/
structure RotationRow where
  user_email : String
  hospital : String
  specialty : String
  grade : String
deriving DecidableEq

/-- The rows of the rotations table whose user_email column equals the
given email (the fetch_user_data filter). -/
def rotationsFor (db : List RotationRow) (email : String) : List RotationRow :=
  db.filter (fun r => r.user_email == email)

/-- The Add Manually submit handler of the rotations form (src/app.py line
220): one insert of one row carrying the session email and the three
entered fields. -/
def manualRotationInsert (db : List RotationRow) (email h s g : String) :
    List RotationRow :=
  db ++ [⟨email, h, s, g⟩]

/-- A generic row of a user owned table: the email key and the rest of the
row. -/
structure DataRow where
  user_email : String
  payload : String
deriving DecidableEq

/-- fetch_user_data (src/app.py lines 92-98).  The session email is an
optional string (None before login); a falsy email returns the empty list
at once.  The hosted query is modelled by the table rows together with a
flag telling whether the call raises; the except branch turns a raise into
the empty list, otherwise the rows matching the email exactly are
returned. -/
def fetch_user_data (tableName : String) (sessionEmail : Option String)
    (db : List DataRow) (raises : Bool) : List DataRow :=
  match sessionEmail with
  | none => []
  | some e =>
    if e = "" then []
    else if raises then []
    else db.filter (fun r => r.user_email == e)

/-- The vault object key built by the upload and signed URL calls
(src/app.py lines 267 and 274): the raw session email, a slash, and the
file name. -/
def vaultObjectPath (email name : String) : String :=
  email ++ "/" ++ name

/-- The prefix passed to the vault listing call (src/app.py line 270): the
raw session email. -/
def vaultListPrefix (email : String) : String := email

/-- The signed URL request issued for one listed file (src/app.py line
274): the object key together with the expiry passed as second argument,
the literal 60 seconds. -/
def vaultSignedUrlRequest (email name : String) : String × Nat :=
  (vaultObjectPath email name, 60)

/-- The first line of a block: the Python expression block.split with the
newline separator, indexed at zero (src/app.py line 199). -/
def pyFirstLine (s : List Char) : List Char :=
  s.takeWhile (fun c => c ≠ '\n')

/-- The row inserted when a detected rotation block is saved (src/app.py
lines 205-212). -/
structure DetectedRotationRow where
  user_email : String
  hospital : List Char
  specialty : List Char
  grade : List Char
  dates : List Char
  description : List Char
deriving DecidableEq

/-- The payload of the Save Entire Experience button: hospital is the first
line of the original block, dates the literal See Details, description the
edited text area content. -/
def detectedRotationInsert (email : String) (block desc spec grade : List Char) :
    DetectedRotationRow :=
  { user_email := email
    hospital := pyFirstLine block
    specialty := spec
    grade := grade
    dates := "See Details".toList
    description := desc }

/-- The row inserted when a detected procedure block is logged (src/app.py
line 233). -/
structure DetectedProcedureRow where
  user_email : String
  procedure_name : List Char
  level : List Char
  count : Nat
deriving DecidableEq

/-- The payload of the Log this Skill button: the edited text sliced to its
first 50 characters, the literal level Independent, and count 1. -/
def detectedProcedureInsert (email : String) (ptext : List Char) :
    DetectedProcedureRow :=
  { user_email := email
    procedure_name := ptext.take 50
    level := "Independent".toList
    count := 1 }

/-- The row inserted when a detected academic block is saved (src/app.py
line 252). -/
structure DetectedProjectRow where
  user_email : String
  projectType : List Char
  title : List Char
deriving DecidableEq

/-- The payload of the Save Project button: the literal type Research and
the block sliced to its first 100 characters. -/
def detectedProjectInsert (email : String) (block : List Char) :
    DetectedProjectRow :=
  { user_email := email
    projectType := "Research".toList
    title := block.take 100 }

/-- The list of one category of the extraction dictionary. -/
def categoryList (e : ParsedCV) : CVCategory → List (List Char)
  | .rotations => e.rotations
  | .procedures => e.procedures
  | .projects => e.projects
  | .registrations => e.registrations

/-- The total number of blocks stored across the four category lists. -/
def countAll (e : ParsedCV) : Nat :=
  e.rotations.length + e.procedures.length + e.projects.length +
    e.registrations.length

theorem listInfixOf_iff (p : List Char) :
    ∀ l, listInfixOf p l = true ↔ p <:+: l
  | [] => by
    simp [listInfixOf]
  | c :: t => by
    simp only [listInfixOf, Bool.or_eq_true, List.isPrefixOf_iff_prefix,
      listInfixOf_iff p t, List.infix_cons_iff]

theorem infix_dropWhile_of_no_space {p : List Char}
    (hne : p ≠ []) (hp : ∀ c ∈ p, pyIsSpace c = false) :
    ∀ {b : List Char}, p <:+: b → p <:+: b.dropWhile pyIsSpace := by
  intro b
  induction b with
  | nil =>
    intro h
    simpa using h
  | cons a t ih =>
    intro h
    rw [List.dropWhile_cons]
    cases hsp : pyIsSpace a with
    | false =>
      simp only [hsp, Bool.false_eq_true, if_false]
      exact h
    | true =>
      simp only [hsp, if_true]
      rcases List.infix_cons_iff.1 h with hpre | hinf
      · exfalso
        cases p with
        | nil => exact hne rfl
        | cons x xs =>
          obtain ⟨r, hr⟩ := hpre
          have hx : x = a := by
            rw [List.cons_append] at hr
            injection hr with h1 _
          have hxs := hp x (by simp)
          rw [hx, hsp] at hxs
          cases hxs
      · exact ih hinf

theorem infix_pyStrip_of_no_space {p b : List Char}
    (hne : p ≠ []) (hp : ∀ c ∈ p, pyIsSpace c = false) (h : p <:+: b) :
    p <:+: pyStrip b := by
  unfold pyStrip
  have h1 := infix_dropWhile_of_no_space hne hp h
  have h2 : p.reverse <:+: (b.dropWhile pyIsSpace).reverse :=
    List.reverse_infix.2 h1
  have hne2 : p.reverse ≠ [] := by
    simpa using hne
  have hp2 : ∀ c ∈ p.reverse, pyIsSpace c = false := by
    intro c hc
    exact hp c (List.mem_reverse.1 hc)
  have h3 := infix_dropWhile_of_no_space hne2 hp2 h2
  have h4 := List.reverse_infix.2 h3
  simpa using h4

theorem pySplitDate_succ (fuel : Nat) (acc rest : List Char) :
    pySplitDate (fuel + 1) acc rest =
      match dateMatchAt rest with
      | some p => acc :: p.1 :: pySplitDate fuel [] p.2
      | none =>
        match rest with
        | [] => [acc]
        | c :: rs => pySplitDate fuel (acc ++ [c]) rs := rfl

theorem pySplitDate_length_aux :
    ∀ (fuel : Nat) (rest acc : List Char), rest.length ≤ fuel →
      ((pySplitDate fuel acc rest).map List.length).sum =
        acc.length + rest.length := by
  intro fuel
  induction fuel with
  | zero =>
    intro rest acc hl
    have hrest : rest = [] := by
      cases rest with
      | nil => rfl
      | cons c rs => simp at hl
    subst hrest
    simp [pySplitDate]
  | succ n ih =>
    intro rest acc hl
    rw [pySplitDate_succ]
    split
    · rename_i p hm
      obtain ⟨happ, hlt⟩ := dateMatchAt_spec hm
      have hrec := ih p.2 [] (by omega)
      simp only [List.map_cons, List.sum_cons, hrec]
      have hsum : p.1.length + p.2.length = rest.length := by
        rw [← happ]
        simp [List.length_append]
      simp only [List.length_nil]
      omega
    · rename_i hm
      cases rest with
      | nil => simp
      | cons c rs =>
        have hrec := ih rs (acc ++ [c]) (by
          simp only [List.length_cons] at hl
          omega)
        simp only [hrec, List.length_append, List.length_cons,
          List.length_nil]
        omega

theorem pySplitDateTokens_length (text : List Char) :
    ((pySplitDateTokens text).map List.length).sum = text.length := by
  have := pySplitDate_length_aux text.length text [] (Nat.le_refl _)
  simpa [pySplitDateTokens] using this

theorem parseBlocksLoop_eq_assign :
    ∀ (segs : List (List Char)) (cur : List Char),
      parseBlocksLoop segs cur = assignBlocks (candidateBlocks segs cur)
  | [], cur => rfl
  | seg :: rest, cur => by
    by_cases hseg : seg = []
    · simp only [parseBlocksLoop, candidateBlocks, hseg, if_true]
      exact parseBlocksLoop_eq_assign rest cur
    · by_cases hlen : 50 < (cur ++ seg).length
      · simp only [parseBlocksLoop, candidateBlocks, hseg, if_false, hlen,
          if_true, assignBlocks]
        rw [parseBlocksLoop_eq_assign rest []]
      · simp only [parseBlocksLoop, candidateBlocks, hseg, if_false, hlen]
        exact parseBlocksLoop_eq_assign rest (cur ++ seg)

theorem candidateBlocks_length :
    ∀ (segs : List (List Char)) (cur b : List Char),
      b ∈ candidateBlocks segs cur → 50 < b.length
  | [], cur, b, h => by simp [candidateBlocks] at h
  | seg :: rest, cur, b, h => by
    by_cases hseg : seg = []
    · rw [candidateBlocks, if_pos hseg] at h
      exact candidateBlocks_length rest cur b h
    · by_cases hlen : 50 < (cur ++ seg).length
      · rw [candidateBlocks, if_neg hseg] at h
        simp only [hlen, if_true, List.mem_cons] at h
        rcases h with rfl | h
        · exact hlen
        · exact candidateBlocks_length rest [] b h
      · rw [candidateBlocks, if_neg hseg] at h
        simp only [hlen, if_false] at h
        exact candidateBlocks_length rest (cur ++ seg) b h

theorem addToCategory_categoryList (oc : Option CVCategory) (b : List Char)
    (e : ParsedCV) (cat : CVCategory) :
    categoryList (addToCategory oc b e) cat =
      if oc = some cat then b :: categoryList e cat else categoryList e cat := by
  cases oc with
  | none => simp [addToCategory]
  | some c =>
    cases c <;> cases cat <;> simp [addToCategory, categoryList]

theorem assignBlocks_mem (cat : CVCategory) :
    ∀ (bs : List (List Char)) (x : List Char),
      x ∈ categoryList (assignBlocks bs) cat ↔
        ∃ b, b ∈ bs ∧ classifyBlock b = some cat ∧ pyStrip b = x
  | [], x => by
    cases cat <;> simp [assignBlocks, emptyParsed, categoryList]
  | b :: bs, x => by
    rw [assignBlocks, addToCategory_categoryList]
    by_cases hc : classifyBlock b = some cat
    · simp only [hc, if_true, List.mem_cons, assignBlocks_mem cat bs x]
      constructor
      · rintro (rfl | ⟨b2, hb2, hc2, hs2⟩)
        · exact ⟨b, Or.inl rfl, hc, rfl⟩
        · exact ⟨b2, Or.inr hb2, hc2, hs2⟩
      · rintro ⟨b2, (rfl | hb2), hc2, hs2⟩
        · exact Or.inl hs2.symm
        · exact Or.inr ⟨b2, hb2, hc2, hs2⟩
    · simp only [hc, if_false, assignBlocks_mem cat bs x]
      constructor
      · rintro ⟨b2, hb2, hc2, hs2⟩
        exact ⟨b2, List.mem_cons_of_mem _ hb2, hc2, hs2⟩
      · rintro ⟨b2, hb2, hc2, hs2⟩
        rcases List.mem_cons.1 hb2 with rfl | hb2
        · exact absurd hc2 hc
        · exact ⟨b2, hb2, hc2, hs2⟩

theorem assignBlocks_countAll :
    ∀ (bs : List (List Char)),
      countAll (assignBlocks bs) =
        (bs.filter (fun b => (classifyBlock b).isSome)).length
  | [] => rfl
  | b :: bs => by
    rw [assignBlocks]
    cases hc : classifyBlock b with
    | none =>
      simp only [addToCategory, List.filter_cons, hc, Option.isSome_none,
        Bool.false_eq_true, if_false]
      exact assignBlocks_countAll bs
    | some c =>
      have hcnt : countAll (addToCategory (some c) (pyStrip b) (assignBlocks bs)) =
          countAll (assignBlocks bs) + 1 := by
        cases c <;> simp [addToCategory, countAll] <;> omega
      simp only [List.filter_cons, hc, Option.isSome_some, if_true, hcnt,
        List.length_cons, assignBlocks_countAll bs]

theorem parseBlocksLoop_small :
    ∀ (segs : List (List Char)) (cur : List Char),
      (segs.map List.length).sum + cur.length ≤ 50 →
        parseBlocksLoop segs cur = emptyParsed
  | [], _, _ => rfl
  | seg :: rest, cur, h => by
    by_cases hseg : seg = []
    · rw [parseBlocksLoop, if_pos hseg]
      refine parseBlocksLoop_small rest cur ?_
      simp only [List.map_cons, List.sum_cons] at h
      omega
    · have hlen : ¬ 50 < (cur ++ seg).length := by
        simp only [List.map_cons, List.sum_cons] at h
        simp only [List.length_append]
        omega
      rw [parseBlocksLoop, if_neg hseg]
      simp only [hlen, if_false]
      refine parseBlocksLoop_small rest (cur ++ seg) ?_
      simp only [List.map_cons, List.sum_cons] at h
      simp only [List.length_append]
      omega

theorem classifyBlock_eq_firstMatch (b : List Char) :
    classifyBlock b = firstMatchCategory keywordTable b := rfl

theorem plainJsonChar_spec {c : Char} (h : plainJsonChar c = true) :
    c ≠ '"' ∧ c ≠ '\\' ∧ c ≠ '\n' ∧ c ≠ '\t' ∧ c ≠ '\r' := by
  simp only [plainJsonChar, Bool.not_eq_true', Bool.or_eq_false_iff,
    decide_eq_false_iff_not] at h
  exact ⟨h.1.1.1.1, h.1.1.1.2, h.1.1.2, h.1.2, h.2⟩

theorem escapeJsonChar_plain {c : Char} (h : plainJsonChar c = true) :
    escapeJsonChar c = [c] := by
  obtain ⟨h1, h2, h3, h4, h5⟩ := plainJsonChar_spec h
  simp [escapeJsonChar, h1, h2, h3, h4, h5]

theorem parse_dump_stringBody (s : List Char)
    (hs : ∀ c ∈ s, plainJsonChar c = true) (rest : List Char) :
    parseJsonStringBody (escapeJsonString s ++ '"' :: rest) = some (s, rest) := by
  induction s with
  | nil =>
    rw [escapeJsonString, List.nil_append, parseJsonStringBody.eq_def]
    simp
  | cons c cs ih =>
    have hc := hs c (by simp)
    obtain ⟨h1, h2, _, _, _⟩ := plainJsonChar_spec hc
    rw [escapeJsonString, escapeJsonChar_plain hc, List.singleton_append,
      List.cons_append, parseJsonStringBody.eq_def]
    simp only []
    rw [if_neg h1, if_neg h2, ih (fun d hd => hs d (List.mem_cons_of_mem _ hd))]

theorem parse_dump_elems :
    ∀ (l : List (List Char)), l ≠ [] →
      (∀ s ∈ l, ∀ c ∈ s, plainJsonChar c = true) →
      parseJsonListBody (dumpJsonElems l ++ [']']) = some (l, [])
  | [], hl, _ => absurd rfl hl
  | [s], _, hs => by
    have hparse : parseJsonStringBody (escapeJsonString s ++ '"' :: [']']) =
        some (s, [']']) :=
      parse_dump_stringBody s (fun c hc => hs s (by simp) c hc) [']']
    have hd : dumpJsonElems [s] ++ [']'] =
        '"' :: (escapeJsonString s ++ '"' :: [']']) := by
      rw [dumpJsonElems, dumpJsonString]
      simp [List.append_assoc]
    rw [hd, parseJsonListBody.eq_def]
    simp only []
    rw [if_pos trivial]
    split
    · rename_i hnone
      rw [hnone] at hparse
      cases hparse
    · rename_i p hsome
      rw [hsome] at hparse
      injection hparse with hp
      subst hp
      rfl
  | s :: s2 :: tl, _, hs => by
    have hE : parseJsonListBody (dumpJsonElems (s2 :: tl) ++ [']']) =
        some (s2 :: tl, []) :=
      parse_dump_elems (s2 :: tl) (by simp)
        (fun t ht c hc => hs t (List.mem_cons_of_mem _ ht) c hc)
    have hparse : parseJsonStringBody
        (escapeJsonString s ++ '"' :: (',' :: ' ' :: (dumpJsonElems (s2 :: tl) ++ [']']))) =
        some (s, ',' :: ' ' :: (dumpJsonElems (s2 :: tl) ++ [']'])) :=
      parse_dump_stringBody s (fun c hc => hs s (by simp) c hc) _
    have hd : dumpJsonElems (s :: s2 :: tl) ++ [']'] =
        '"' :: (escapeJsonString s ++ '"' ::
          (',' :: ' ' :: (dumpJsonElems (s2 :: tl) ++ [']']))) := by
      show (dumpJsonString s ++ ',' :: ' ' :: dumpJsonElems (s2 :: tl)) ++ [']'] = _
      rw [dumpJsonString]
      simp [List.append_assoc]
    rw [hd, parseJsonListBody.eq_def]
    simp only []
    rw [if_pos trivial]
    split
    · rename_i hnone
      rw [hnone] at hparse
      cases hparse
    · rename_i p hsome
      rw [hsome] at hparse
      injection hparse with hp
      subst hp
      simp only []
      rw [hE]

theorem dumpJsonElems_cons_head (s : List Char) (rest : List (List Char)) :
    ∃ Y, dumpJsonElems (s :: rest) = '"' :: Y := by
  cases rest with
  | nil =>
    refine ⟨escapeJsonString s ++ ['"'], ?_⟩
    rw [dumpJsonElems, dumpJsonString]
    simp
  | cons s2 tl =>
    refine ⟨escapeJsonString s ++ ['"'] ++ ',' :: ' ' :: dumpJsonElems (s2 :: tl), ?_⟩
    show dumpJsonString s ++ ',' :: ' ' :: dumpJsonElems (s2 :: tl) = _
    rw [dumpJsonString]
    simp [List.append_assoc]

theorem pyJsonLoads_dumps (l : List (List Char))
    (hs : ∀ s ∈ l, ∀ c ∈ s, plainJsonChar c = true) :
    pyJsonLoadsList (pyJsonDumpsList l) = some l := by
  cases l with
  | nil => rfl
  | cons s rest =>
    obtain ⟨Y, hY⟩ := dumpJsonElems_cons_head s rest
    have hplb := parse_dump_elems (s :: rest) (by simp) hs
    rw [pyJsonDumpsList, pyJsonLoadsList.eq_def]
    simp only []
    rw [if_pos trivial]
    have hne2 : dumpJsonElems (s :: rest) ++ [']'] ≠ [']'] := by
      rw [hY]
      simp
    rw [if_neg hne2, hplb]
    simp

theorem profilesFor_mapReplace (db : List ProfileRow) (r : ProfileRow) :
    profilesFor (db.map (fun x => if x.user_email == r.user_email then r else x))
        r.user_email
      = (db.filter (fun x => x.user_email == r.user_email)).map (fun _ => r) := by
  unfold profilesFor
  induction db with
  | nil => rfl
  | cons x t ih =>
    rw [List.map_cons]
    by_cases hx : (x.user_email == r.user_email) = true
    · have hrr : (r.user_email == r.user_email) = true := by simp
      rw [if_pos hx,
        @List.filter_cons_of_pos _ (fun y => y.user_email == r.user_email) r _ hrr,
        @List.filter_cons_of_pos _ (fun y => y.user_email == r.user_email) x _ hx,
        List.map_cons, ih]
    · rw [if_neg hx,
        @List.filter_cons_of_neg _ (fun y => y.user_email == r.user_email) x _ hx,
        @List.filter_cons_of_neg _ (fun y => y.user_email == r.user_email) x _ hx,
        ih]

theorem profilesFor_upsert_head (db : List ProfileRow) (r : ProfileRow) :
    (profilesFor (upsertProfile db r) r.user_email).head? = some r := by
  unfold upsertProfile
  by_cases hany : db.any (fun x => x.user_email == r.user_email)
  · rw [if_pos hany, profilesFor_mapReplace]
    have hne : db.filter (fun x => x.user_email == r.user_email) ≠ [] := by
      intro hnil
      simp only [List.any_eq_true] at hany
      obtain ⟨x, hx, htest⟩ := hany
      have hmem : x ∈ db.filter (fun x => x.user_email == r.user_email) :=
        List.mem_filter.2 ⟨hx, htest⟩
      rw [hnil] at hmem
      simp at hmem
    cases hfe : db.filter (fun x => x.user_email == r.user_email) with
    | nil => exact absurd hfe hne
    | cons a t => simp [hfe]
  · rw [if_neg hany]
    have hnil : profilesFor db r.user_email = [] := by
      rw [Bool.not_eq_true, List.any_eq_false] at hany
      unfold profilesFor
      rw [List.filter_eq_nil_iff]
      exact hany
    unfold profilesFor
    unfold profilesFor at hnil
    rw [List.filter_append, hnil]
    simp

theorem append_slash_inj :
    ∀ (l1 m1 l2 m2 : List Char), '/' ∉ l1 → '/' ∉ l2 →
      l1 ++ '/' :: m1 = l2 ++ '/' :: m2 → l1 = l2 ∧ m1 = m2
  | [], m1, [], m2, _, _, h => by
    rw [List.nil_append, List.nil_append] at h
    injection h with _ h2
    exact ⟨rfl, h2⟩
  | [], m1, x :: l2, m2, _, h2, h => by
    rw [List.nil_append, List.cons_append] at h
    injection h with hx _
    exact absurd (hx ▸ List.mem_cons_self x l2) h2
  | x :: l1, m1, [], m2, h1, _, h => by
    rw [List.nil_append, List.cons_append] at h
    injection h with hx _
    exact absurd (hx ▸ List.mem_cons_self x l1) h1
  | x :: l1, m1, y :: l2, m2, h1, h2, h => by
    rw [List.cons_append, List.cons_append] at h
    injection h with hx htail
    have hrec := append_slash_inj l1 m1 l2 m2
      (fun hm => h1 (List.mem_cons_of_mem _ hm))
      (fun hm => h2 (List.mem_cons_of_mem _ hm)) htail
    refine ⟨?_, hrec.2⟩
    rw [hx, hrec.1]

theorem vaultObjectPath_inj (e1 n1 e2 n2 : String)
    (h1 : '/' ∉ e1.data) (h2 : '/' ∉ e2.data)
    (h : vaultObjectPath e1 n1 = vaultObjectPath e2 n2) : e1 = e2 ∧ n1 = n2 := by
  unfold vaultObjectPath at h
  have hd : e1.data ++ '/' :: n1.data = e2.data ++ '/' :: n2.data := by
    have hcongr := congrArg String.data h
    simpa [String.data_append, List.append_assoc] using hcongr
  obtain ⟨ha, hb⟩ := append_slash_inj e1.data n1.data e2.data n2.data h1 h2 hd
  cases e1
  cases e2
  cases n1
  cases n2
  simp only [String.data] at ha hb
  exact ⟨by rw [ha], by rw [hb]⟩

/-- C1: for every tier key and country key present in the static
equivalency table the lookup returns the exact literal string recorded in
the table, and in particular the Tier 1 entry looked up at the country key
UK returns the string Foundation Year 1. -/
theorem C1_equivalency_lookup_exact :
    (∀ p ∈ EQUIVALENCY_MAP, ∀ q ∈ p.2, equivalencyLookup p.1 q.1 = some q.2) ∧
    equivalencyLookup "Tier 1: Junior (Intern/FY1)" "UK" =
      some "Foundation Year 1" := by
  decide

/-- Witness for C1: the universal part applied to the Tier 2 row and its
Poland entry. -/
theorem C1_equivalency_lookup_exact_witness :
    equivalencyLookup "Tier 2: Intermediate (SHO/Resident)" "Poland" =
      some "Lekarz rezydent (Junior)" :=
  C1_equivalency_lookup_exact.1
    ("Tier 2: Intermediate (SHO/Resident)",
      (EQUIVALENCY_MAP.get ⟨1, by decide⟩).2) (by decide)
    ("Poland", "Lekarz rezydent (Junior)") (by decide)

/-- C2 counterexample: a block longer than 50 characters that matches both
the rotation and the procedure keyword sets.  The code assigns it to the
rotations list and leaves procedures empty, while the priority order
claimed by the specification (registration, procedure, academic, rotation)
would classify it as a procedure block. -/
theorem C2_claimed_priority_cex :
    (deep_parse_medical_cv
        "Performed advanced procedures daily at the General Hospital department".toList).rotations
      = ["Performed advanced procedures daily at the General Hospital department".toList] ∧
    (deep_parse_medical_cv
        "Performed advanced procedures daily at the General Hospital department".toList).procedures
      = [] ∧
    firstMatchCategory specClaimedKeywordTable
        "Performed advanced procedures daily at the General Hospital department".toList
      = some CVCategory.procedures ∧
    50 < "Performed advanced procedures daily at the General Hospital department".toList.length := by
  decide

/-- C2 (amended): each candidate block that meets the minimum length
threshold is tested against the category keyword sets in the fixed
priority order registration, rotation, procedure, academic, and is
assigned to the first category whose keyword set matches, or discarded
when none matches. -/
theorem C2_priority_order_amended :
    (∀ text : List Char,
      deep_parse_medical_cv text =
        assignBlocks (candidateBlocks (pySplitDateTokens text) [])) ∧
    (∀ b : List Char, classifyBlock b = firstMatchCategory keywordTable b) :=
  ⟨fun text => parseBlocksLoop_eq_assign _ _, fun _ => rfl⟩

/-- C3 counterexample, three failing inputs.  First, a short text
containing the substring Hospital on its only line is discarded entirely,
so the rotations list is empty.  Second, a long text with Hospital on its
only line also matches a registration keyword, which preempts the rotation
category.  Third, a text whose only line starts with spaces: a rotation
block is produced, but it is stripped and no longer contains that line. -/
theorem C3_hospital_line_cex :
    (deep_parse_medical_cv "General Hospital".toList = emptyParsed ∧
      listInfixOf "Hospital".toList "General Hospital".toList = true) ∧
    ((deep_parse_medical_cv
        "My GMC registration and licence cover work at the Royal Hospital site".toList).rotations
        = [] ∧
      listInfixOf "Hospital".toList
        "My GMC registration and licence cover work at the Royal Hospital site".toList = true ∧
      50 < "My GMC registration and licence cover work at the Royal Hospital site".toList.length) ∧
    ((deep_parse_medical_cv
        "   Hospital ward duties with the cardiology team on call rounds".toList).rotations
        = [pyStrip "   Hospital ward duties with the cardiology team on call rounds".toList] ∧
      listInfixOf
        "   Hospital ward duties with the cardiology team on call rounds".toList
        (pyStrip "   Hospital ward duties with the cardiology team on call rounds".toList)
        = false) := by
  decide

/-- C3 (amended): whenever a candidate block of the parse contains the
substring Hospital and matches no registration keyword, the parse returns
at least one block in the rotations list that contains the substring
Hospital. -/
theorem C3_hospital_rotation_amended (text b : List Char)
    (hb : b ∈ candidateBlocks (pySplitDateTokens text) [])
    (hh : listInfixOf "Hospital".toList b = true)
    (hreg : hasKeyword b registrationKeywords = false) :
    ∃ r ∈ (deep_parse_medical_cv text).rotations,
      listInfixOf "Hospital".toList r = true := by
  have hinf : "Hospital".toList <:+: b := (listInfixOf_iff _ _).1 hh
  have hrot : hasKeyword b rotationKeywords = true := by
    have hmap : ("Hospital".toList.map pyLower) <:+: (b.map pyLower) :=
      List.IsInfix.map _ hinf
    have hlow : "Hospital".toList.map pyLower = "hospital".toList := by decide
    rw [hlow] at hmap
    unfold hasKeyword
    exact List.any_eq_true.2
      ⟨"hospital".toList, by decide, (listInfixOf_iff _ _).2 hmap⟩
  have hcls : classifyBlock b = some CVCategory.rotations := by
    unfold classifyBlock
    rw [hreg]
    simp [hrot]
  unfold deep_parse_medical_cv
  rw [parseBlocksLoop_eq_assign]
  refine ⟨pyStrip b, ?_, ?_⟩
  · exact (assignBlocks_mem CVCategory.rotations
      (candidateBlocks (pySplitDateTokens text) []) (pyStrip b)).2 ⟨b, hb, hcls, rfl⟩
  · have hs := infix_pyStrip_of_no_space (by decide) (by decide) hinf
    exact (listInfixOf_iff _ _).2 hs

/-- Witness for the amended C3 at a concrete CV text. -/
theorem C3_hospital_rotation_amended_witness :
    ∃ r ∈ (deep_parse_medical_cv
        "Clinical duties at the County Hospital with the surgical wards team".toList).rotations,
      listInfixOf "Hospital".toList r = true :=
  C3_hospital_rotation_amended
    "Clinical duties at the County Hospital with the surgical wards team".toList
    "Clinical duties at the County Hospital with the surgical wards team".toList
    (by decide) (by decide) (by decide)

/-- C4: saving a profile (upsert of the tier string and the country list
serialised with json.dumps, keyed by user_email) and then reloading it
(head row of the exact-email select, with json.loads applied to the stored
string) yields the same tier string and the same country list, for every
prior database state and every list of labels made of plain printable
characters, which covers every country label of COUNTRY_KEY_MAP. -/
theorem C4_profile_roundtrip (db : List ProfileRow) (email tier : String)
    (countries : List (List Char))
    (hc : ∀ s ∈ countries, ∀ c ∈ s, plainJsonChar c = true) :
    reloadTier (saveProfilePrefs db email tier countries) email = tier ∧
    reloadCountries (saveProfilePrefs db email tier countries) email =
      some countries := by
  have hhead : (profilesFor
      (upsertProfile db ⟨email, tier, pyJsonDumpsList countries⟩) email).head?
      = some ⟨email, tier, pyJsonDumpsList countries⟩ :=
    profilesFor_upsert_head db ⟨email, tier, pyJsonDumpsList countries⟩
  constructor
  · show reloadTier (upsertProfile db ⟨email, tier, pyJsonDumpsList countries⟩)
        email = tier
    unfold reloadTier
    rw [hhead]
  · show reloadCountries (upsertProfile db ⟨email, tier, pyJsonDumpsList countries⟩)
        email = some countries
    unfold reloadCountries
    rw [hhead]
    exact pyJsonLoads_dumps countries hc

/-- Witness for C4: a concrete round trip through an empty database. -/
theorem C4_profile_roundtrip_witness :
    reloadTier (saveProfilePrefs [] "doc@example.com"
        "Tier 2: Intermediate (SHO/Resident)"
        ["United Kingdom".toList, "Poland".toList]) "doc@example.com"
      = "Tier 2: Intermediate (SHO/Resident)" ∧
    reloadCountries (saveProfilePrefs [] "doc@example.com"
        "Tier 2: Intermediate (SHO/Resident)"
        ["United Kingdom".toList, "Poland".toList]) "doc@example.com"
      = some ["United Kingdom".toList, "Poland".toList] :=
  C4_profile_roundtrip [] "doc@example.com" "Tier 2: Intermediate (SHO/Resident)"
    ["United Kingdom".toList, "Poland".toList] (by decide)

/-- C5: submitting the manual rotation form performs exactly one insert of
exactly one row carrying the session email and the entered hospital,
specialty and grade, and exactly that one new row becomes visible among
the rows fetched for that user afterward. -/
theorem C5_manual_rotation_insert (db : List RotationRow) (email h s g : String) :
    manualRotationInsert db email h s g = db ++ [⟨email, h, s, g⟩] ∧
    (manualRotationInsert db email h s g).length = db.length + 1 ∧
    rotationsFor (manualRotationInsert db email h s g) email =
      rotationsFor db email ++ [⟨email, h, s, g⟩] := by
  refine ⟨rfl, by simp [manualRotationInsert], ?_⟩
  unfold rotationsFor manualRotationInsert
  rw [List.filter_append]
  simp

/-- C6: when the stored tier string is not one of the four keys of the
equivalency table the selectbox index falls back to 0, and when it is a
valid key the index is that key's position in the key list. -/
theorem C6_tier_select_index (curr : String) :
    (curr ∉ tierKeys → tierSelectIndex curr = 0) ∧
    (∀ i : Fin tierKeys.length, tierKeys.get i = curr → tierSelectIndex curr = i.1) := by
  constructor
  · intro hmem
    unfold tierSelectIndex
    rw [if_neg (by simpa using hmem)]
  · intro i hi
    subst hi
    fin_cases i <;> decide

/-- Witness for C6: an unknown tier string falls back to index 0, and the
Tier 3 key selects index 2. -/
theorem C6_tier_select_index_witness :
    tierSelectIndex "NotATier" = 0 ∧
    tierSelectIndex "Tier 3: Senior (Registrar/Fellow)" = 2 :=
  ⟨(C6_tier_select_index "NotATier").1 (by decide),
   (C6_tier_select_index "Tier 3: Senior (Registrar/Fellow)").2
     ⟨2, by decide⟩ (by decide)⟩

/-- C7 counterexample: the vault object key is built from the raw session
email with no sanitization, so the keys of two different users can
collide: the emails a/b and a with file names c.pdf and b/c.pdf produce
the same object key, hence the keys are not partitioned by any sanitized
form of the email.  The third conjunct shows a slash inside an email
passing into the key verbatim. -/
theorem C7_sanitized_partition_cex :
    vaultObjectPath "a/b" "c.pdf" = vaultObjectPath "a" "b/c.pdf" ∧
    ("a/b" : String) ≠ "a" ∧
    vaultObjectPath "a/b@clinic.org" "scan.pdf" = "a/b@clinic.org/scan.pdf" := by
  refine ⟨by decide, by decide, by decide⟩

/-- C7 (amended): upload, listing and signed URL creation all address keys
built from the raw unsanitized email followed by a slash and the file
name; the partition into per-user key spaces is injective only for emails
containing no slash; and every signed URL request carries the fixed
60-second expiry. -/
theorem C7_vault_paths_amended :
    (∀ e1 n1 e2 n2 : String, '/' ∉ e1.data → '/' ∉ e2.data →
      vaultObjectPath e1 n1 = vaultObjectPath e2 n2 → e1 = e2 ∧ n1 = n2) ∧
    (∀ email name : String,
      vaultSignedUrlRequest email name =
        (vaultObjectPath (vaultListPrefix email) name, 60)) :=
  ⟨fun e1 n1 e2 n2 h1 h2 h => vaultObjectPath_inj e1 n1 e2 n2 h1 h2 h,
   fun _ _ => rfl⟩

/-- Witness for the amended C7 at concrete slash-free emails. -/
theorem C7_vault_paths_amended_witness :
    ("doc@clinic.org" : String) = "doc@clinic.org" ∧
    ("scan.pdf" : String) = "scan.pdf" :=
  C7_vault_paths_amended.1 "doc@clinic.org" "scan.pdf" "doc@clinic.org"
    "scan.pdf" (by decide) (by decide) rfl

/-- C8: for every table name, fetch_user_data returns the empty list
whenever the session email is unset (None or empty) or the backend query
raises, and otherwise returns exactly the rows whose user_email column
equals the session email. -/
theorem C8_fetch_user_data_total (tableName : String)
    (sessionEmail : Option String) (db : List DataRow) (raises : Bool) :
    (sessionEmail = none →
      fetch_user_data tableName sessionEmail db raises = []) ∧
    (sessionEmail = some "" →
      fetch_user_data tableName sessionEmail db raises = []) ∧
    (raises = true →
      fetch_user_data tableName sessionEmail db raises = []) ∧
    (∀ e : String, sessionEmail = some e → e ≠ "" → raises = false →
      ∀ r : DataRow,
        r ∈ fetch_user_data tableName sessionEmail db raises ↔
          r ∈ db ∧ r.user_email = e) := by
  refine ⟨?_, ?_, ?_, ?_⟩
  · rintro rfl
    rfl
  · rintro rfl
    simp [fetch_user_data]
  · rintro rfl
    cases sessionEmail with
    | none => rfl
    | some e =>
      unfold fetch_user_data
      by_cases he : e = ""
      · simp [he]
      · simp [he]
  · rintro e rfl hne rfl r
    unfold fetch_user_data
    simp [hne, List.mem_filter]

/-- Witness for C8: an unset session email gives the empty list, and with
a live session the row of the user is returned. -/
theorem C8_fetch_user_data_total_witness :
    fetch_user_data "rotations" none [] true = [] ∧
    (⟨"doc@x.com", "row"⟩ : DataRow) ∈
      fetch_user_data "rotations" (some "doc@x.com")
        [⟨"doc@x.com", "row"⟩] false :=
  ⟨(C8_fetch_user_data_total "rotations" none [] true).1 rfl,
   ((C8_fetch_user_data_total "rotations" (some "doc@x.com")
       [⟨"doc@x.com", "row"⟩] false).2.2.2 "doc@x.com" rfl (by decide) rfl
     ⟨"doc@x.com", "row"⟩).2 ⟨by decide, rfl⟩⟩

/-- C9: the parser appends each classified block to exactly one category
list; every stored block arises as the strip of a candidate accumulation
strictly longer than 50 characters; the trailing accumulation is always
discarded when the segments run out; and any extracted text of at most 50
characters yields all four lists empty. -/
theorem C9_parser_invariants :
    (∀ text : List Char,
      countAll (deep_parse_medical_cv text) =
        ((candidateBlocks (pySplitDateTokens text) []).filter
          (fun b => (classifyBlock b).isSome)).length) ∧
    (∀ (text : List Char) (cat : CVCategory) (x : List Char),
      x ∈ categoryList (deep_parse_medical_cv text) cat →
        ∃ b, b ∈ candidateBlocks (pySplitDateTokens text) [] ∧
          50 < b.length ∧ classifyBlock b = some cat ∧ pyStrip b = x) ∧
    (∀ cur : List Char, parseBlocksLoop [] cur = emptyParsed) ∧
    (∀ text : List Char, text.length ≤ 50 →
      deep_parse_medical_cv text = emptyParsed) := by
  refine ⟨?_, ?_, fun _ => rfl, ?_⟩
  · intro text
    unfold deep_parse_medical_cv
    rw [parseBlocksLoop_eq_assign, assignBlocks_countAll]
  · intro text cat x hx
    unfold deep_parse_medical_cv at hx
    rw [parseBlocksLoop_eq_assign] at hx
    obtain ⟨b, hb, hcls, hstrip⟩ := (assignBlocks_mem cat _ x).1 hx
    exact ⟨b, hb, candidateBlocks_length _ _ _ hb, hcls, hstrip⟩
  · intro text hlen
    unfold deep_parse_medical_cv
    apply parseBlocksLoop_small
    rw [pySplitDateTokens_length]
    simp only [List.length_nil]
    omega

/-- Witness for C9: a text of at most 50 characters parses to the empty
dictionary. -/
theorem C9_parser_invariants_witness :
    deep_parse_medical_cv "Short CV".toList = emptyParsed :=
  C9_parser_invariants.2.2.2 "Short CV".toList (by decide)

/-- C10: saving a detected CV item stores fixed constants regardless of
content: a detected rotation stores dates See Details and hospital the
first line of the block; a detected procedure stores the edited text
truncated to 50 characters, level Independent and count 1; a detected
project stores type Research and the block truncated to 100 characters. -/
theorem C10_detected_save_constants (email : String)
    (block desc spec grade ptext : List Char) :
    (detectedRotationInsert email block desc spec grade).dates =
      "See Details".toList ∧
    (detectedRotationInsert email block desc spec grade).hospital =
      pyFirstLine block ∧
    pyFirstLine block <+: block ∧
    (pyFirstLine block).contains '\n' = false ∧
    (detectedRotationInsert email block desc spec grade).description = desc ∧
    (detectedProcedureInsert email ptext).procedure_name = ptext.take 50 ∧
    (detectedProcedureInsert email ptext).level = "Independent".toList ∧
    (detectedProcedureInsert email ptext).count = 1 ∧
    (ptext.take 50).length ≤ 50 ∧
    ptext.take 50 <+: ptext ∧
    (detectedProjectInsert email block).projectType = "Research".toList ∧
    (detectedProjectInsert email block).title = block.take 100 ∧
    (block.take 100).length ≤ 100 ∧
    block.take 100 <+: block := by
  refine ⟨rfl, rfl, List.takeWhile_prefix _, ?_, rfl, rfl, rfl, rfl,
    List.length_take_le _ _, List.take_prefix _ _, rfl, rfl,
    List.length_take_le _ _, List.take_prefix _ _⟩
  cases hcon : (pyFirstLine block).contains '\n'
  · rfl
  · exfalso
    have hmem : '\n' ∈ pyFirstLine block := List.elem_iff.1 hcon
    have hp := List.mem_takeWhile_imp hmem
    simp at hp

end MedicalPassport
